import Mathlib

/-!
Event dispatcher generator of `mga`.

A verification development for
`internal/generate/event/dispatcher/generator.go`.

The generator drives the builder of the `jennifer` library (`jen`), an external
dependency.  The builder calls are embedded as data: every `jen` call of the
source becomes the constructor of the same name, a call chain
`jen.Id("ctx").Qual("context", "Context")` becomes the statement
`Stmt [Id "ctx", Qual "context" "Context"]`, and the `*jen.File` that the
generator mutates becomes a value that is passed through.
-/

set_option autoImplicit false

namespace jen

/-- Node of the code tree assembled with `jen`.  One constructor for each
builder function that the generator calls; `Stmt` is a `*jen.Statement`, the
chain of items produced by consecutive calls. -/
inductive Code where
  | Type_ : Code
  | Func : Code
  | Id (name : String) : Code
  | Qual (path name : String) : Code
  | Op (op : String) : Code
  | Lit (v : String) : Code
  | Err : Code
  | Nil : Code
  | Error : Code
  | Line : Code
  | Comment (text : String) : Code
  | Dot (name : String) : Code
  | Params (items : List Code) : Code
  | Call (items : List Code) : Code
  | Block (items : List Code) : Code
  | Struct (items : List Code) : Code
  | Interface (items : List Code) : Code
  | Return (items : List Code) : Code
  | If (items : List Code) : Code
  | Values (items : List Code) : Code
  | Dict (entries : List (Code × Code)) : Code
  | Stmt (items : List Code) : Code

mutual
/-- All nodes of a tree, the root first. -/
def Code.nodes : Code → List Code
  | .Params xs => .Params xs :: nodesList xs
  | .Call xs => .Call xs :: nodesList xs
  | .Block xs => .Block xs :: nodesList xs
  | .Struct xs => .Struct xs :: nodesList xs
  | .Interface xs => .Interface xs :: nodesList xs
  | .Return xs => .Return xs :: nodesList xs
  | .If xs => .If xs :: nodesList xs
  | .Values xs => .Values xs :: nodesList xs
  | .Dict es => .Dict es :: nodesDict es
  | .Stmt xs => .Stmt xs :: nodesList xs
  | c => [c]
/-- All nodes of a sequence of trees. -/
def nodesList : List Code → List Code
  | [] => []
  | x :: xs => x.nodes ++ nodesList xs
/-- All nodes of the keys and values of a `jen.Dict`. -/
def nodesDict : List (Code × Code) → List Code
  | [] => []
  | (k, v) :: es => k.nodes ++ v.nodes ++ nodesDict es
end

/-- The `*jen.File` under construction: package path and name, the header
comments, the import names given with `ImportName` (path, name), and the
statements of the file body. -/
structure File where
  path : String
  name : String
  headers : List String
  imports : List (String × String)
  items : List Code

/-- Embeds `jen.NewFilePathName`. -/
def NewFilePathName (path name : String) : File :=
  { path := path, name := name, headers := [], imports := [], items := [] }

/-- Embeds `File.HeaderComment`: the comment is appended to the headers. -/
def File.HeaderComment (f : File) (comment : String) : File :=
  { f with headers := f.headers ++ [comment] }

/-- Embeds `File.ImportName`: the name is stored under the path, as the
assignment to a Go map does; an earlier record of the path is replaced. -/
def File.ImportName (f : File) (path name : String) : File :=
  { f with imports := (path, name) :: f.imports.filter (fun e => e.1 != path) }

/-- The name recorded for a path, if any. -/
def File.importName? (f : File) (path : String) : Option String :=
  f.imports.lookup path

/-- A statement is appended to the file body.  This is what `code.Type()`,
`code.Func()` and `code.Commentf(...)` do with the statement that the rest of
the call chain then extends. -/
def File.Add (f : File) (s : Code) : File :=
  { f with items := f.items ++ [s] }

/-- Embeds `File.Commentf`, with the format already applied. -/
def File.Commentf (f : File) (text : String) : File :=
  f.Add (.Stmt [.Comment text])

/-! ## Reading statements as Go declarations

The statements of a file body are read back as the declarations they render
to: `type N struct {...}`, `type N interface {...}`, `func N(...) R {...}` and
`func (r T) N(...) R {...}`. -/

/-- Applies a partial reading to every element; fails if one does. -/
def mapOpt {α β : Type} (f : α → Option β) : List α → Option (List β)
  | [] => some []
  | x :: xs =>
    match f x, mapOpt f xs with
    | some y, some ys => some (y :: ys)
    | _, _ => none

/-- A `Line()` item, which renders as a line break only. -/
def isLine : Code → Bool
  | .Line => true
  | _ => false

/-- A statement that is only a comment. -/
def isComment : Code → Bool
  | .Stmt [.Comment _] => true
  | _ => false

/-- A field or parameter `name type`: the identifier and the items of its
type. -/
def asParam : Code → Option (String × List Code)
  | .Stmt (.Id n :: ty) => some (n, ty)
  | _ => none

/-- The part of a function declaration after the parameter list: the items of
the result type, then the block, then line breaks only. -/
def funcTail : List Code → Option (List Code × List Code)
  | [] => none
  | .Block b :: rest => if rest.all isLine then some ([], b) else none
  | t :: rest =>
    match funcTail rest with
    | some (rs, b) => some (t :: rs, b)
    | none => none

/-- Top-level declaration of a Go file. -/
inductive Decl where
  | StructDecl (name : String) (fields : List (String × List Code)) : Decl
  | InterfaceDecl (name : String) (methods : List Code) : Decl
  | FuncDecl (receiver : Option (String × List Code)) (name : String)
      (params : List (String × List Code)) (results : List Code) (body : List Code) : Decl

/-- Reads a statement of the file body as a declaration. -/
def asDecl : Code → Option Decl
  | .Stmt (.Type_ :: .Id n :: .Struct fs :: rest) =>
    if rest.all isLine then
      match mapOpt asParam fs with
      | some fields => some (.StructDecl n fields)
      | none => none
    else none
  | .Stmt (.Type_ :: .Id n :: .Interface ms :: rest) =>
    if rest.all isLine then some (.InterfaceDecl n ms) else none
  | .Stmt (.Func :: .Id n :: .Params ps :: rest) =>
    match mapOpt asParam ps, funcTail rest with
    | some params, some (rs, b) => some (.FuncDecl none n params rs b)
    | _, _ => none
  | .Stmt (.Func :: .Params [r] :: .Id n :: .Params ps :: rest) =>
    match asParam r, mapOpt asParam ps, funcTail rest with
    | some recv, some params, some (rs, b) => some (.FuncDecl (some recv) n params rs b)
    | _, _, _ => none
  | _ => none

/-- The declarations of a file body, in order: every statement that is not a
comment has to read as a declaration. -/
def declsOf (items : List Code) : Option (List Decl) :=
  mapOpt asDecl (items.filter (fun c => !isComment c))

/-- The body of a function declaration. -/
def Decl.body? : Decl → Option (List Code)
  | .FuncDecl _ _ _ _ body => some body
  | _ => none

/-- Kind of a declaration. -/
inductive DeclKind where
  | interface_
  | struct_
  | function
  | method
  deriving DecidableEq, Repr

/-- Kind and name of a declaration. -/
def Decl.summary : Decl → DeclKind × String
  | .StructDecl n _ => (.struct_, n)
  | .InterfaceDecl n _ => (.interface_, n)
  | .FuncDecl none n _ _ _ => (.function, n)
  | .FuncDecl (some _) n _ _ _ => (.method, n)

/-- The name of a struct type declaration. -/
def Decl.structName? : Decl → Option String
  | .StructDecl n _ => some n
  | _ => none

/-- The statement is the short variable declaration `x := ...`. -/
def bindsName (x : String) : Code → Bool
  | .Stmt (.Id n :: .Op o :: _) => n == x && o == ":="
  | .Stmt (.Err :: .Op o :: _) => x == "err" && o == ":="
  | _ => false

/-- A `return` statement. -/
def isReturn : Code → Bool
  | .Return _ => true
  | _ => false

/-- An `if` statement. -/
def isIf : Code → Bool
  | .If _ => true
  | _ => false

/-- The path of a qualified reference `jen.Qual(path, name)`. -/
def qualPath? : Code → Option String
  | .Qual path _ => some path
  | _ => none

/-- The paths of all qualified references in a sequence of statements. -/
def qualPathsOf (items : List Code) : List String :=
  (nodesList items).filterMap qualPath?

/-- The paths of all qualified references in the file body. -/
def File.qualPaths (f : File) : List String :=
  qualPathsOf f.items

/-- The paths that have a record in the import registry. -/
def File.importPaths (f : File) : List String :=
  f.imports.map Prod.fst

end jen

namespace gentypes

/-- Modelled from the spec: the declaration of `gentypes.PackageRef` is not
among the sources; these are the fields the generator reads, the short name
and the canonical path of a package. -/
structure PackageRef where
  Name : String
  Path : String

/-- Modelled from the spec: the declaration of `gentypes.TypeRef` is not among
the sources; a symbol reference, the name of a type and its package. -/
structure TypeRef where
  Name : String
  Package : PackageRef

/-- Modelled from the spec: the declaration of `gentypes.File` is not among the
sources; the target package and the optional header text. -/
structure File where
  Package : PackageRef
  HeaderText : String

end gentypes

namespace dispatcher

open jen

/-- Modelled from the spec: the declaration of `EventMethod` is not among the
sources; a dispatcher method with its name, its event type and the two flags
the generator reads. -/
structure EventMethod where
  Name : String
  Event : gentypes.TypeRef
  ReceivesContext : Bool
  ReturnsError : Bool

/-- EventDispatcher describes the event dispatcher interface. -/
structure EventDispatcher where
  Name : String
  DispatcherMethods : List EventMethod

/-- File provides information for generating event dispatchers. -/
structure File extends gentypes.File where
  EventDispatchers : List EventDispatcher

/-- Embeds `generateEventBus`. -/
def generateEventBus (code : jen.File) (eventBusTypeName : String) : jen.File :=
  let code := code.Commentf (eventBusTypeName ++ " is a generic event bus.")
  code.Add (.Stmt [.Type_, .Id eventBusTypeName, .Interface [
    .Stmt [.Comment "Publish sends an event to the underlying message bus."],
    .Stmt [.Id "Publish", .Params [
      .Stmt [.Id "ctx", .Qual "context" "Context"],
      .Stmt [.Id "event", .Interface []]
    ], .Error]
  ], .Line])

/-- One iteration of the loop over `eventDispatcher.DispatcherMethods` in
`generateEventDispatcher`. -/
def generateDispatcherMethod (code : jen.File) (eventDispatcherTypeName : String)
    (method : EventMethod) : jen.File :=
  let eventBusVarName := "bus"
  let code := code.ImportName method.Event.Package.Path method.Event.Package.Name
  let params : List Code := []
  let params := if method.ReceivesContext then
      params ++ [.Stmt [.Id "ctx", .Qual "context" "Context"]]
    else params
  let params := params ++ [.Stmt [.Id "event", .Qual method.Event.Package.Path method.Event.Name]]
  let code := code.Commentf
    (method.Name ++ " dispatches a(n) " ++ method.Event.Name ++ " event.")
  let fn : List Code := [.Func, .Params [.Stmt [.Id "d", .Id eventDispatcherTypeName]],
    .Id method.Name, .Params params]
  let fn := if method.ReturnsError then fn ++ [.Error] else fn
  let block : List Code := []
  let block := if !method.ReceivesContext then
      block ++ [.Stmt [.Id "ctx", .Op ":=", .Qual "context" "Background", .Call []]]
    else block
  let block := if method.ReturnsError then
      block ++ [
        .Stmt [.Err, .Op ":=", .Id "d", .Dot eventBusVarName, .Dot "Publish", .Call [
          .Stmt [.Id "ctx"],
          .Stmt [.Id "event"]
        ]],
        .Stmt [.If [
          .Stmt [.Err, .Op "!=", .Nil]
        ], .Block [
          .Stmt [.Return [.Stmt [.Qual "emperror.dev/errors" "WithDetails", .Call [
            .Stmt [.Qual "emperror.dev/errors" "WithMessage", .Call [
              .Stmt [.Err],
              .Stmt [.Lit "failed to dispatch event"]
            ]],
            .Stmt [.Lit "event"], .Stmt [.Lit method.Event.Name]
          ]]]]
        ]],
        .Stmt [.Line],
        .Stmt [.Return [.Stmt [.Nil]]]
      ]
    else
      block ++ [.Stmt [.Id "_", .Op "=", .Id "d", .Dot eventBusVarName, .Dot "Publish", .Call [
        .Stmt [.Id "ctx"],
        .Stmt [.Id "event"]
      ]]]
  code.Add (.Stmt (fn ++ [.Block block, .Line]))

/-- Embeds `generateEventDispatcher`. -/
def generateEventDispatcher (code : jen.File) (eventDispatcher : EventDispatcher) : jen.File :=
  let eventDispatcherTypeName := eventDispatcher.Name ++ "EventDispatcher"
  let eventBusVarName := "bus"
  let eventBusTypeName := "EventBus"
  let code := code.Commentf
    (eventDispatcherTypeName ++ " dispatches events through the underlying generic event bus.")
  let code := code.Add (.Stmt [.Type_, .Id eventDispatcherTypeName, .Struct [
    .Stmt [.Id eventBusVarName, .Id eventBusTypeName]
  ], .Line])
  let code := code.Commentf
    ("New" ++ eventDispatcherTypeName ++ " returns a new " ++ eventDispatcherTypeName
      ++ " instance.")
  let code := code.Add (.Stmt [.Func, .Id ("New" ++ eventDispatcherTypeName),
    .Params [.Stmt [.Id eventBusVarName, .Id eventBusTypeName]],
    .Id eventDispatcherTypeName,
    .Block [
      .Stmt [.Return [
        .Stmt [.Id eventDispatcherTypeName, .Values [.Dict [
          (.Stmt [.Id eventBusVarName], .Stmt [.Id eventBusVarName])
        ]]]
      ]]
    ],
    .Line])
  eventDispatcher.DispatcherMethods.foldl
    (fun code method => generateDispatcherMethod code eventDispatcherTypeName method) code

/-- The part of `Generate` that builds the `*jen.File`: everything before the
call of `code.Render`. -/
def buildFile (file : File) : jen.File :=
  let code := NewFilePathName file.Package.Path file.Package.Name
  let code := code.HeaderComment "// +build !ignore_autogenerated\n"
  let code := if file.HeaderText != "" then code.HeaderComment file.HeaderText else code
  let code := code.HeaderComment "Code generated by mga tool. DO NOT EDIT."
  let code := code.ImportName "emperror.dev/errors" "errors"
  let eventBusTypeName := "EventBus"
  let code := generateEventBus code eventBusTypeName
  file.EventDispatchers.foldl generateEventDispatcher code

/-- Embeds `Generate`.  The renderer of `jen` (`code.Render`) and the Go
formatter (`format.Source`) are external to the repository and are taken as
parameters; each returns either the bytes or an error. -/
def Generate (Render : jen.File → Except String String)
    (formatSource : String → Except String String) (file : File) : Except String String :=
  let code := buildFile file
  match Render code with
  | .error err => .error err
  | .ok buf => formatSource buf

/-- The statements that one iteration of the method loop appends: the ones it
leaves in a file that was empty. -/
def methodItems (eventDispatcherTypeName : String) (method : EventMethod) : List Code :=
  (generateDispatcherMethod (NewFilePathName "" "") eventDispatcherTypeName method).items

/-- The statements that `generateEventDispatcher` appends: the ones it leaves
in a file that was empty. -/
def dispatcherItems (eventDispatcher : EventDispatcher) : List Code :=
  (generateEventDispatcher (NewFilePathName "" "") eventDispatcher).items

/-- The declarations among the statements that `generateEventDispatcher` adds
to the file `code`. -/
def appendedDecls (code : jen.File) (eventDispatcher : EventDispatcher) : Option (List Decl) :=
  declsOf ((generateEventDispatcher code eventDispatcher).items.drop code.items.length)

/-- The declaration generated for the method at index `i` of the dispatcher:
the first two declarations added are the struct type and the constructor, the
methods follow. -/
def methodDecl? (code : jen.File) (eventDispatcher : EventDispatcher) (i : Nat) : Option Decl :=
  match appendedDecls code eventDispatcher with
  | some ds => ds[2 + i]?
  | none => none

/-- The body of the declaration generated for the method at index `i`. -/
def methodBody? (code : jen.File) (eventDispatcher : EventDispatcher) (i : Nat) :
    Option (List Code) :=
  match methodDecl? code eventDispatcher i with
  | some d => d.body?
  | none => none

/-- The declaration that one iteration of the method loop appends. -/
def methodDeclOf (eventDispatcherTypeName : String) (method : EventMethod) : Decl :=
  match declsOf (methodItems eventDispatcherTypeName method) with
  | some (d :: _) => d
  | _ => .InterfaceDecl "" []

/-- A dispatcher method without context and without error result. -/
def notifyMethod : EventMethod :=
  { Name := "Notify", Event := { Name := "OrderEvent", Package := { Name := "pkg", Path := "example.com/pkg" } },
    ReceivesContext := false, ReturnsError := false }

/-- A dispatcher method with context and with error result. -/
def publishMethod : EventMethod :=
  { Name := "Publish", Event := { Name := "OrderEvent", Package := { Name := "pkg", Path := "example.com/pkg" } },
    ReceivesContext := true, ReturnsError := true }

/-- The dispatcher `Order` with the two methods above. -/
def orderDispatcher : EventDispatcher :=
  { Name := "Order", DispatcherMethods := [notifyMethod, publishMethod] }

/-- The declarations that `generateEventDispatcher` appends. -/
def dispatcherDecls (eventDispatcher : EventDispatcher) : List Decl :=
  match declsOf (dispatcherItems eventDispatcher) with
  | some ds => ds
  | none => []

/-- A file with the dispatcher `Order`; the event package is `pkg`. -/
def orderFile : File :=
  { Package := { Name := "app", Path := "example.com/app" }, HeaderText := "",
    EventDispatchers := [orderDispatcher] }

/-- A file without dispatchers. -/
def emptyFile : File :=
  { Package := { Name := "app", Path := "example.com/app" }, HeaderText := "",
    EventDispatchers := [] }

/-- A file whose only event type has an empty package path. -/
def emptyPathFile : File :=
  { Package := { Name := "app", Path := "" }, HeaderText := "",
    EventDispatchers := [
      { Name := "Order", DispatcherMethods := [
        { Name := "Notify",
          Event := { Name := "OrderEvent", Package := { Name := "", Path := "" } },
          ReceivesContext := false, ReturnsError := false }] }] }

/-- The import records left by a sequence of `ImportName` calls, starting from
the records `imports`. -/
def recordAll (calls : List (String × String)) (imports : List (String × String)) :
    List (String × String) :=
  calls.foldl (fun l c => (c.1, c.2) :: l.filter (fun e => e.1 != c.1)) imports

/-- The calls of `ImportName` that `Generate` makes, in the order of the
calls: path and name. -/
def importCalls (file : File) : List (String × String) :=
  ("emperror.dev/errors", "errors") ::
    file.EventDispatchers.flatMap (fun d =>
      d.DispatcherMethods.map (fun m => (m.Event.Package.Path, m.Event.Package.Name)))

end dispatcher

/-! ## The statements appended by the generator -/

namespace dispatcher

open jen

theorem items_generateDispatcherMethod (code : jen.File) (T : String) (m : EventMethod) :
    (generateDispatcherMethod code T m).items = code.items ++ methodItems T m := by
  simp [generateDispatcherMethod, methodItems, File.Add, File.Commentf, File.ImportName,
    NewFilePathName]

theorem items_foldl_methods (T : String) (ms : List EventMethod) (code : jen.File) :
    (ms.foldl (fun c m => generateDispatcherMethod c T m) code).items
      = code.items ++ ms.flatMap (methodItems T) := by
  induction ms generalizing code with
  | nil => simp
  | cons m ms ih =>
    simp only [List.foldl_cons, ih, items_generateDispatcherMethod, List.flatMap_cons,
      List.append_assoc]

theorem items_generateEventDispatcher (code : jen.File) (d : EventDispatcher) :
    (generateEventDispatcher code d).items = code.items ++ dispatcherItems d := by
  simp [generateEventDispatcher, dispatcherItems, items_foldl_methods, File.Add, File.Commentf,
    NewFilePathName]

theorem items_foldl_dispatchers (ds : List EventDispatcher) (code : jen.File) :
    (ds.foldl generateEventDispatcher code).items = code.items ++ ds.flatMap dispatcherItems := by
  induction ds generalizing code with
  | nil => simp
  | cons d ds ih =>
    simp only [List.foldl_cons, ih, items_generateEventDispatcher, List.flatMap_cons,
      List.append_assoc]

theorem dispatcherItems_eq (d : EventDispatcher) :
    dispatcherItems d
      = (dispatcherItems d).take 4
          ++ d.DispatcherMethods.flatMap (methodItems (d.Name ++ "EventDispatcher")) := by
  simp [generateEventDispatcher, dispatcherItems, items_foldl_methods, File.Add, File.Commentf,
    NewFilePathName]

theorem items_buildFile (file : File) :
    (buildFile file).items
      = (generateEventBus (NewFilePathName "" "") "EventBus").items
          ++ file.EventDispatchers.flatMap dispatcherItems := by
  simp [buildFile, items_foldl_dispatchers, generateEventBus, File.Add, File.Commentf,
    File.ImportName, File.HeaderComment, NewFilePathName]
  split <;> rfl

/-! ## Reading the appended statements as declarations -/

theorem mapOpt_append {α β : Type} (f : α → Option β) (xs ys : List α) (a b : List β)
    (hx : mapOpt f xs = some a) (hy : mapOpt f ys = some b) :
    mapOpt f (xs ++ ys) = some (a ++ b) := by
  induction xs generalizing a with
  | nil =>
    simp only [mapOpt, Option.some.injEq] at hx
    subst hx
    simpa using hy
  | cons x xs ih =>
    simp only [mapOpt] at hx
    cases hfx : f x with
    | none => simp [hfx] at hx
    | some y =>
      cases hxs : mapOpt f xs with
      | none => simp [hfx, hxs] at hx
      | some ys0 =>
        simp only [hfx, hxs, Option.some.injEq] at hx
        subst hx
        simp [mapOpt, hfx, ih ys0 hxs]

theorem declsOf_append (xs ys : List Code) (a b : List Decl)
    (hx : declsOf xs = some a) (hy : declsOf ys = some b) :
    declsOf (xs ++ ys) = some (a ++ b) := by
  unfold declsOf at *
  rw [List.filter_append]
  exact mapOpt_append _ _ _ _ _ hx hy

theorem declsOf_flatMap {α : Type} (g : α → List Code) (h : α → List Decl) (xs : List α)
    (hg : ∀ x ∈ xs, declsOf (g x) = some (h x)) :
    declsOf (xs.flatMap g) = some (xs.flatMap h) := by
  induction xs with
  | nil => rfl
  | cons x xs ih =>
    simp only [List.flatMap_cons]
    exact declsOf_append _ _ _ _ (hg x (List.mem_cons_self _ _))
      (ih (fun y hy => hg y (List.mem_cons_of_mem _ hy)))

theorem declsOf_methodItems (T : String) (m : EventMethod) :
    declsOf (methodItems T m) = some [methodDeclOf T m] := by
  obtain ⟨n, e, rc, re⟩ := m
  cases rc <;> cases re <;> rfl

theorem flatMap_singleton_map {α β : Type} (f : α → β) (xs : List α) :
    xs.flatMap (fun x => [f x]) = xs.map f := by
  induction xs with
  | nil => rfl
  | cons x xs ih => simp [List.flatMap_cons, ih]

theorem declsOf_flatMap_methodItems (T : String) (ms : List EventMethod) :
    declsOf (ms.flatMap (methodItems T)) = some (ms.map (methodDeclOf T)) := by
  rw [← flatMap_singleton_map]
  exact declsOf_flatMap _ _ _ (fun m _ => declsOf_methodItems T m)

theorem declsOf_dispatcherItems (d : EventDispatcher) :
    declsOf (dispatcherItems d)
      = some (.StructDecl (d.Name ++ "EventDispatcher") [("bus", [.Id "EventBus"])]
          :: .FuncDecl none ("New" ++ (d.Name ++ "EventDispatcher"))
              [("bus", [.Id "EventBus"])] [.Id (d.Name ++ "EventDispatcher")]
              [.Stmt [.Return [.Stmt [.Id (d.Name ++ "EventDispatcher"),
                .Values [.Dict [(.Stmt [.Id "bus"], .Stmt [.Id "bus"])]]]]]]
          :: d.DispatcherMethods.map (methodDeclOf (d.Name ++ "EventDispatcher"))) := by
  rw [dispatcherItems_eq]
  refine declsOf_append _ _ [_, _] _ ?_ (declsOf_flatMap_methodItems _ _)
  simp [generateEventDispatcher, dispatcherItems, items_foldl_methods, File.Add, File.Commentf,
    NewFilePathName]
  rfl

theorem appendedDecls_eq (code : jen.File) (d : EventDispatcher) :
    appendedDecls code d
      = some (.StructDecl (d.Name ++ "EventDispatcher") [("bus", [.Id "EventBus"])]
          :: .FuncDecl none ("New" ++ (d.Name ++ "EventDispatcher"))
              [("bus", [.Id "EventBus"])] [.Id (d.Name ++ "EventDispatcher")]
              [.Stmt [.Return [.Stmt [.Id (d.Name ++ "EventDispatcher"),
                .Values [.Dict [(.Stmt [.Id "bus"], .Stmt [.Id "bus"])]]]]]]
          :: d.DispatcherMethods.map (methodDeclOf (d.Name ++ "EventDispatcher"))) := by
  unfold appendedDecls
  rw [items_generateEventDispatcher, List.drop_left, declsOf_dispatcherItems]

theorem methodDecl?_eq (code : jen.File) (d : EventDispatcher) (i : Nat) (m : EventMethod)
    (hm : d.DispatcherMethods[i]? = some m) :
    methodDecl? code d i = some (methodDeclOf (d.Name ++ "EventDispatcher") m) := by
  unfold methodDecl?
  rw [appendedDecls_eq]
  simp [Nat.add_comm 2 i, List.getElem?_map, hm]

/-! ## The generated declarations -/

/-- C1: for a dispatcher named `N`, `generateEventDispatcher` keeps the
statements already in the file and appends first the struct type
`N ++ "EventDispatcher"` whose only field is `bus EventBus`, then the function
`"New" ++ N ++ "EventDispatcher"` with the single parameter `bus EventBus`, the
result type `N ++ "EventDispatcher"` and a body that is the one statement
`return N ++ "EventDispatcher"{bus: bus}`. -/
theorem generateEventDispatcher_struct_and_constructor (code : jen.File) (d : EventDispatcher) :
    code.items <+: (generateEventDispatcher code d).items ∧
    ∃ rest, appendedDecls code d
      = some (.StructDecl (d.Name ++ "EventDispatcher") [("bus", [.Id "EventBus"])]
          :: .FuncDecl none ("New" ++ (d.Name ++ "EventDispatcher"))
              [("bus", [.Id "EventBus"])] [.Id (d.Name ++ "EventDispatcher")]
              [.Stmt [.Return [.Stmt [.Id (d.Name ++ "EventDispatcher"),
                .Values [.Dict [(.Stmt [.Id "bus"], .Stmt [.Id "bus"])]]]]]]
          :: rest) :=
  ⟨⟨dispatcherItems d, (items_generateEventDispatcher code d).symm⟩,
    _, appendedDecls_eq code d⟩

/-- C2: for a method with `ReturnsError = true`, the statements of the generated
body after the optional context binding are, in order,
`err := d.bus.Publish(ctx, event)`, the block `if err != nil` whose only
statement returns `errors.WithDetails(errors.WithMessage(err, "failed to
dispatch event"), "event", <Event.Name>)` with both calls qualified by
`"emperror.dev/errors"`, a blank line, and `return nil`, which is the last
statement. -/
theorem error_method_body (code : jen.File) (d : EventDispatcher) (i : Nat) (m : EventMethod)
    (hm : d.DispatcherMethods[i]? = some m) (he : m.ReturnsError = true) :
    ∃ body, methodBody? code d i = some body ∧
      body.length = (if m.ReceivesContext then 0 else 1) + 4 ∧
      body.drop (if m.ReceivesContext then 0 else 1) = [
        .Stmt [.Err, .Op ":=", .Id "d", .Dot "bus", .Dot "Publish",
          .Call [.Stmt [.Id "ctx"], .Stmt [.Id "event"]]],
        .Stmt [.If [.Stmt [.Err, .Op "!=", .Nil]], .Block [
          .Stmt [.Return [.Stmt [.Qual "emperror.dev/errors" "WithDetails", .Call [
            .Stmt [.Qual "emperror.dev/errors" "WithMessage", .Call [
              .Stmt [.Err], .Stmt [.Lit "failed to dispatch event"]]],
            .Stmt [.Lit "event"], .Stmt [.Lit m.Event.Name]]]]]]],
        .Stmt [.Line],
        .Stmt [.Return [.Stmt [.Nil]]]] ∧
      body.getLast? = some (.Stmt [.Return [.Stmt [.Nil]]]) := by
  unfold methodBody?
  rw [methodDecl?_eq code d i m hm]
  obtain ⟨n, e, rc, re⟩ := m
  simp only at he
  subst he
  cases rc
  · exact ⟨_, rfl, rfl, rfl, rfl⟩
  · exact ⟨_, rfl, rfl, rfl, rfl⟩

/-- Witness of C2 at the method `Publish` of the dispatcher `Order`. -/
theorem error_method_body_witness :
    orderDispatcher.DispatcherMethods[1]? = some publishMethod ∧
    publishMethod.ReturnsError = true ∧
    ∃ body, methodBody? (NewFilePathName "example.com/app" "app") orderDispatcher 1 = some body ∧
      body.length = 4 ∧
      body.getLast? = some (.Stmt [.Return [.Stmt [.Nil]]]) :=
  ⟨rfl, rfl,
    match error_method_body (NewFilePathName "example.com/app" "app") orderDispatcher 1
      publishMethod rfl rfl with
    | ⟨body, h1, h2, _, h4⟩ => ⟨body, h1, h2, h4⟩⟩

/-- C3: for a method with `ReturnsError = false`, the last statement of the
generated body is the assignment `_ = d.bus.Publish(ctx, event)`, and no node of
the body is a `return`, an `if` or a binding of `err`. -/
theorem discarding_method_body (code : jen.File) (d : EventDispatcher) (i : Nat)
    (m : EventMethod) (hm : d.DispatcherMethods[i]? = some m) (he : m.ReturnsError = false) :
    ∃ body, methodBody? code d i = some body ∧
      body.getLast? = some (.Stmt [.Id "_", .Op "=", .Id "d", .Dot "bus", .Dot "Publish",
        .Call [.Stmt [.Id "ctx"], .Stmt [.Id "event"]]]) ∧
      ∀ n ∈ nodesList body, isReturn n = false ∧ isIf n = false ∧ bindsName "err" n = false := by
  unfold methodBody?
  rw [methodDecl?_eq code d i m hm]
  obtain ⟨n, e, rc, re⟩ := m
  simp only at he
  subst he
  have key : ∀ body : List Code,
      (nodesList body).all (fun n => !isReturn n && !isIf n && !bindsName "err" n) = true →
      ∀ n ∈ nodesList body, isReturn n = false ∧ isIf n = false ∧ bindsName "err" n = false := by
    intro body hall n hn
    have := List.all_eq_true.mp hall n hn
    simpa [and_assoc] using this
  cases rc
  · exact ⟨_, rfl, rfl, key _ rfl⟩
  · exact ⟨_, rfl, rfl, key _ rfl⟩

/-- Witness of C3 at the method `Notify` of the dispatcher `Order`. -/
theorem discarding_method_body_witness :
    orderDispatcher.DispatcherMethods[0]? = some notifyMethod ∧
    notifyMethod.ReturnsError = false ∧
    ∃ body, methodBody? (NewFilePathName "example.com/app" "app") orderDispatcher 0 = some body ∧
      body.getLast? = some (.Stmt [.Id "_", .Op "=", .Id "d", .Dot "bus", .Dot "Publish",
        .Call [.Stmt [.Id "ctx"], .Stmt [.Id "event"]]]) ∧
      ∀ n ∈ nodesList body, isReturn n = false ∧ isIf n = false ∧ bindsName "err" n = false :=
  ⟨rfl, rfl,
    discarding_method_body (NewFilePathName "example.com/app" "app") orderDispatcher 0
      notifyMethod rfl rfl⟩

/-- C4: the generated method body begins with the binding
`ctx := context.Background()` if and only if `ReceivesContext` is false; when
`ReceivesContext` is true no node of the body binds `ctx`. -/
theorem context_binding_first (code : jen.File) (d : EventDispatcher) (i : Nat)
    (m : EventMethod) (hm : d.DispatcherMethods[i]? = some m) :
    ∃ body, methodBody? code d i = some body ∧
      (body.head? = some (.Stmt [.Id "ctx", .Op ":=", .Qual "context" "Background", .Call []])
        ↔ m.ReceivesContext = false) ∧
      (m.ReceivesContext = true → ∀ n ∈ nodesList body, bindsName "ctx" n = false) := by
  unfold methodBody?
  rw [methodDecl?_eq code d i m hm]
  obtain ⟨n, e, rc, re⟩ := m
  have key : ∀ body : List Code,
      (nodesList body).all (fun n => !bindsName "ctx" n) = true →
      ∀ n ∈ nodesList body, bindsName "ctx" n = false := by
    intro body hall n hn
    simpa using List.all_eq_true.mp hall n hn
  cases rc <;> cases re
  · exact ⟨_, rfl, by simp [methodDeclOf, Decl.body?], by simp⟩
  · exact ⟨_, rfl, by simp [methodDeclOf, Decl.body?], by simp⟩
  · refine ⟨_, rfl, ?_, fun _ => key _ rfl⟩
    simp only [Bool.true_eq_false, iff_false]
    intro h
    have h2 : some false = some true := congrArg (Option.map (bindsName "ctx")) h
    cases h2
  · refine ⟨_, rfl, ?_, fun _ => key _ rfl⟩
    simp only [Bool.true_eq_false, iff_false]
    intro h
    have h2 : some false = some true := congrArg (Option.map (bindsName "ctx")) h
    cases h2

/-- Witness of C4 at the method `Notify` of the dispatcher `Order`. -/
theorem context_binding_first_witness :
    orderDispatcher.DispatcherMethods[0]? = some notifyMethod ∧
    ∃ body, methodBody? (NewFilePathName "example.com/app" "app") orderDispatcher 0 = some body ∧
      (body.head? = some (.Stmt [.Id "ctx", .Op ":=", .Qual "context" "Background", .Call []])
        ↔ notifyMethod.ReceivesContext = false) ∧
      (notifyMethod.ReceivesContext = true → ∀ n ∈ nodesList body, bindsName "ctx" n = false) :=
  ⟨rfl, context_binding_first (NewFilePathName "example.com/app" "app") orderDispatcher 0
    notifyMethod rfl⟩

/-- C5: the declaration generated for a method `m` of the dispatcher `D` has
the receiver `d` of type `D.Name ++ "EventDispatcher"`, the name `m.Name`, the
parameters `ctx context.Context, event <path>.<name>` when `m.ReceivesContext`
is true and `event <path>.<name>` alone otherwise, and the single result
`error` when `m.ReturnsError` is true and no result otherwise. -/
theorem generated_method_signature (code : jen.File) (d : EventDispatcher) (i : Nat)
    (m : EventMethod) (hm : d.DispatcherMethods[i]? = some m) :
    ∃ body, methodDecl? code d i
      = some (.FuncDecl (some ("d", [.Id (d.Name ++ "EventDispatcher")])) m.Name
          (if m.ReceivesContext then
            [("ctx", [.Qual "context" "Context"]),
              ("event", [.Qual m.Event.Package.Path m.Event.Name])]
          else [("event", [.Qual m.Event.Package.Path m.Event.Name])])
          (if m.ReturnsError then [.Error] else [])
          body) := by
  rw [methodDecl?_eq code d i m hm]
  obtain ⟨n, e, rc, re⟩ := m
  cases rc <;> cases re <;> exact ⟨_, rfl⟩

/-- Witness of C5 at the method `Publish` of the dispatcher `Order`. -/
theorem generated_method_signature_witness :
    orderDispatcher.DispatcherMethods[1]? = some publishMethod ∧
    ∃ body, methodDecl? (NewFilePathName "example.com/app" "app") orderDispatcher 1
      = some (.FuncDecl (some ("d", [.Id "OrderEventDispatcher"])) "Publish"
          [("ctx", [.Qual "context" "Context"]),
            ("event", [.Qual "example.com/pkg" "OrderEvent"])]
          [.Error] body) :=
  ⟨rfl, generated_method_signature (NewFilePathName "example.com/app" "app") orderDispatcher 1
    publishMethod rfl⟩

/-! ## The file as a whole -/

theorem headers_generateDispatcherMethod (code : jen.File) (T : String) (m : EventMethod) :
    (generateDispatcherMethod code T m).headers = code.headers := by
  simp [generateDispatcherMethod, File.Add, File.Commentf, File.ImportName]

theorem headers_foldl_methods (T : String) (ms : List EventMethod) (code : jen.File) :
    (ms.foldl (fun c m => generateDispatcherMethod c T m) code).headers = code.headers := by
  induction ms generalizing code with
  | nil => rfl
  | cons m ms ih => simp only [List.foldl_cons, ih, headers_generateDispatcherMethod]

theorem headers_generateEventDispatcher (code : jen.File) (d : EventDispatcher) :
    (generateEventDispatcher code d).headers = code.headers := by
  simp [generateEventDispatcher, headers_foldl_methods, File.Add, File.Commentf]

theorem headers_foldl_dispatchers (ds : List EventDispatcher) (code : jen.File) :
    (ds.foldl generateEventDispatcher code).headers = code.headers := by
  induction ds generalizing code with
  | nil => rfl
  | cons d ds ih => simp only [List.foldl_cons, ih, headers_generateEventDispatcher]

/-- C7: the header comments that `Generate` registers are, in order, the
build tag `"// +build !ignore_autogenerated\n"`, then `file.HeaderText` if and
only if it is not empty, then `"Code generated by mga tool. DO NOT EDIT."`; so
there are three of them when `HeaderText` is not empty and two otherwise. -/
theorem header_comments (file : File) :
    (buildFile file).headers
      = ["// +build !ignore_autogenerated\n"]
          ++ (if file.HeaderText = "" then [] else [file.HeaderText])
          ++ ["Code generated by mga tool. DO NOT EDIT."] ∧
    (buildFile file).headers.length = (if file.HeaderText = "" then 2 else 3) ∧
    (buildFile file).headers.head? = some "// +build !ignore_autogenerated\n" ∧
    (buildFile file).headers.getLast? = some "Code generated by mga tool. DO NOT EDIT." := by
  have h : (buildFile file).headers
      = ["// +build !ignore_autogenerated\n"]
          ++ (if file.HeaderText = "" then [] else [file.HeaderText])
          ++ ["Code generated by mga tool. DO NOT EDIT."] := by
    simp only [buildFile, headers_foldl_dispatchers, generateEventBus, File.Add, File.Commentf,
      File.ImportName, File.HeaderComment, NewFilePathName]
    by_cases hh : file.HeaderText = "" <;> simp [hh]
  rw [h]
  by_cases hh : file.HeaderText = "" <;> simp [hh]

theorem summary_methodDeclOf (T : String) (m : EventMethod) :
    (methodDeclOf T m).summary = (.method, m.Name) ∧ (methodDeclOf T m).structName? = none := by
  obtain ⟨n, e, rc, re⟩ := m
  cases rc <;> cases re <;> exact ⟨rfl, rfl⟩

theorem declsOf_dispatcherItems_eq (d : EventDispatcher) :
    declsOf (dispatcherItems d) = some (dispatcherDecls d) := by
  unfold dispatcherDecls
  rw [declsOf_dispatcherItems]

theorem dispatcherDecls_eq (d : EventDispatcher) :
    dispatcherDecls d
      = .StructDecl (d.Name ++ "EventDispatcher") [("bus", [.Id "EventBus"])]
          :: .FuncDecl none ("New" ++ (d.Name ++ "EventDispatcher"))
              [("bus", [.Id "EventBus"])] [.Id (d.Name ++ "EventDispatcher")]
              [.Stmt [.Return [.Stmt [.Id (d.Name ++ "EventDispatcher"),
                .Values [.Dict [(.Stmt [.Id "bus"], .Stmt [.Id "bus"])]]]]]]
          :: d.DispatcherMethods.map (methodDeclOf (d.Name ++ "EventDispatcher")) := by
  unfold dispatcherDecls
  rw [declsOf_dispatcherItems]

theorem summary_dispatcherDecls (d : EventDispatcher) :
    (dispatcherDecls d).map Decl.summary
      = (.struct_, d.Name ++ "EventDispatcher")
          :: (.function, "New" ++ (d.Name ++ "EventDispatcher"))
          :: d.DispatcherMethods.map (fun m => (DeclKind.method, m.Name)) := by
  rw [dispatcherDecls_eq]
  have h : (Decl.summary ∘ methodDeclOf (d.Name ++ "EventDispatcher"))
      = fun m => (DeclKind.method, m.Name) :=
    funext (fun m => (summary_methodDeclOf _ m).1)
  simp only [List.map_cons, List.map_map, h]
  rfl

theorem structName_dispatcherDecls (d : EventDispatcher) :
    (dispatcherDecls d).filterMap Decl.structName? = [d.Name ++ "EventDispatcher"] := by
  rw [dispatcherDecls_eq]
  have h : ∀ ms : List EventMethod,
      (ms.map (methodDeclOf (d.Name ++ "EventDispatcher"))).filterMap Decl.structName? = [] := by
    intro ms
    induction ms with
    | nil => rfl
    | cons m ms ih =>
      simp only [List.map_cons, List.filterMap_cons, (summary_methodDeclOf _ m).2, ih]
  simp only [List.filterMap_cons, Decl.structName?, h]

theorem length_dispatcherDecls (d : EventDispatcher) :
    (dispatcherDecls d).length = 2 + d.DispatcherMethods.length := by
  rw [dispatcherDecls_eq]
  simp only [List.length_cons, List.length_map]
  omega

theorem declsOf_buildFile (file : File) :
    declsOf (buildFile file).items
      = some (.InterfaceDecl "EventBus" [
          .Stmt [.Comment "Publish sends an event to the underlying message bus."],
          .Stmt [.Id "Publish", .Params [
            .Stmt [.Id "ctx", .Qual "context" "Context"],
            .Stmt [.Id "event", .Interface []]], .Error]]
          :: file.EventDispatchers.flatMap dispatcherDecls) := by
  rw [items_buildFile]
  exact declsOf_append _ _ [_] _ rfl (declsOf_flatMap _ _ _ (fun d _ => declsOf_dispatcherItems_eq d))

theorem flatMap_dispatcherDecls (ds : List EventDispatcher) :
    (ds.flatMap dispatcherDecls).map Decl.summary
      = ds.flatMap (fun d =>
          (DeclKind.struct_, d.Name ++ "EventDispatcher")
            :: (DeclKind.function, "New" ++ (d.Name ++ "EventDispatcher"))
            :: d.DispatcherMethods.map (fun m => (DeclKind.method, m.Name))) ∧
    (ds.flatMap dispatcherDecls).length
      = (ds.map (fun d => 2 + d.DispatcherMethods.length)).sum ∧
    (ds.flatMap dispatcherDecls).filterMap Decl.structName?
      = ds.map (fun d => d.Name ++ "EventDispatcher") := by
  induction ds with
  | nil => exact ⟨rfl, rfl, rfl⟩
  | cons d ds ih =>
    obtain ⟨ih1, ih2, ih3⟩ := ih
    refine ⟨?_, ?_, ?_⟩
    · simp only [List.flatMap_cons, List.map_append, ih1, summary_dispatcherDecls]
    · simp only [List.flatMap_cons, List.length_append, ih2, length_dispatcherDecls,
        List.map_cons, List.sum_cons]
    · simp only [List.flatMap_cons, List.filterMap_append, ih3, structName_dispatcherDecls,
        List.map_cons, List.singleton_append]

/-- C8: the top-level declarations that `Generate` builds are the interface
`EventBus` once, then for each dispatcher, in the order of
`file.EventDispatchers`, its struct type, its constructor and one method for
each entry of `DispatcherMethods` in input order.  Their number is one plus the
sum over the dispatchers of two plus the number of methods, and the names of
the struct types are those of the dispatchers, in order and with repetitions. -/
theorem declaration_sequence (file : File) :
    ∃ decls, declsOf (buildFile file).items = some decls ∧
      decls.map Decl.summary
        = (DeclKind.interface_, "EventBus")
            :: file.EventDispatchers.flatMap (fun d =>
              (DeclKind.struct_, d.Name ++ "EventDispatcher")
                :: (DeclKind.function, "New" ++ (d.Name ++ "EventDispatcher"))
                :: d.DispatcherMethods.map (fun m => (DeclKind.method, m.Name))) ∧
      decls.length
        = 1 + (file.EventDispatchers.map (fun d => 2 + d.DispatcherMethods.length)).sum ∧
      decls.filterMap Decl.structName?
        = file.EventDispatchers.map (fun d => d.Name ++ "EventDispatcher") := by
  obtain ⟨h1, h2, h3⟩ := flatMap_dispatcherDecls file.EventDispatchers
  refine ⟨_, declsOf_buildFile file, ?_, ?_, ?_⟩
  · simp only [List.map_cons, h1]
    rfl
  · simp only [List.length_cons, h2]
    omega
  · simp only [List.filterMap_cons, Decl.structName?, h3]

/-! ## The import registry -/

theorem lookup_append_eq (p : String) (a b : List (String × String)) :
    (a ++ b).lookup p = match a.lookup p with
      | some n => some n
      | none => b.lookup p := by
  induction a with
  | nil => rfl
  | cons c a ih =>
    obtain ⟨q, n⟩ := c
    by_cases h : p = q
    · subst h
      simp [List.lookup_cons]
    · have hb : (p == q) = false := by simpa using h
      simp only [List.cons_append, List.lookup_cons, hb, ih]

theorem lookup_filter_ne (p q : String) (h : p ≠ q) (l : List (String × String)) :
    (l.filter (fun e => e.1 != q)).lookup p = l.lookup p := by
  induction l with
  | nil => rfl
  | cons c l ih =>
    obtain ⟨r, n⟩ := c
    by_cases hr : r = q
    · subst hr
      have hb : (p == r) = false := by simpa using h
      simp [List.filter_cons, List.lookup_cons, hb, ih]
    · by_cases hp : p = r
      · subst hp
        simp [List.filter_cons, List.lookup_cons, hr]
      · have hb : (p == r) = false := by simpa using hp
        simp [List.filter_cons, List.lookup_cons, hr, hb, ih]

theorem lookup_recordAll (p : String) (calls : List (String × String))
    (imports : List (String × String)) :
    (recordAll calls imports).lookup p = match calls.reverse.lookup p with
      | some n => some n
      | none => imports.lookup p := by
  induction calls generalizing imports with
  | nil => rfl
  | cons c calls ih =>
    obtain ⟨q, n⟩ := c
    simp only [recordAll, List.foldl_cons] at ih ⊢
    rw [ih, List.reverse_cons, lookup_append_eq]
    cases hl : calls.reverse.lookup p with
    | some k => rfl
    | none =>
      by_cases h : p = q
      · subst h
        simp [List.lookup_cons]
      · have hb : (p == q) = false := by simpa using h
        simp [List.lookup_cons, hb, lookup_filter_ne p q h]

theorem recordAll_append (a b : List (String × String)) (imports : List (String × String)) :
    recordAll (a ++ b) imports = recordAll b (recordAll a imports) := by
  simp [recordAll, List.foldl_append]

theorem imports_generateDispatcherMethod (code : jen.File) (T : String) (m : EventMethod) :
    (generateDispatcherMethod code T m).imports
      = recordAll [(m.Event.Package.Path, m.Event.Package.Name)] code.imports := by
  simp [generateDispatcherMethod, recordAll, File.Add, File.Commentf, File.ImportName]

theorem imports_foldl_methods (T : String) (ms : List EventMethod) (code : jen.File) :
    (ms.foldl (fun c m => generateDispatcherMethod c T m) code).imports
      = recordAll (ms.map (fun m => (m.Event.Package.Path, m.Event.Package.Name)))
          code.imports := by
  induction ms generalizing code with
  | nil => rfl
  | cons m ms ih =>
    rw [List.foldl_cons, ih, imports_generateDispatcherMethod, List.map_cons]
    rfl

theorem imports_generateEventDispatcher (code : jen.File) (d : EventDispatcher) :
    (generateEventDispatcher code d).imports
      = recordAll (d.DispatcherMethods.map
          (fun m => (m.Event.Package.Path, m.Event.Package.Name))) code.imports := by
  simp [generateEventDispatcher, imports_foldl_methods, File.Add, File.Commentf]

theorem imports_foldl_dispatchers (ds : List EventDispatcher) (code : jen.File) :
    (ds.foldl generateEventDispatcher code).imports
      = recordAll (ds.flatMap (fun d => d.DispatcherMethods.map
          (fun m => (m.Event.Package.Path, m.Event.Package.Name)))) code.imports := by
  induction ds generalizing code with
  | nil => rfl
  | cons d ds ih =>
    rw [List.foldl_cons, ih, imports_generateEventDispatcher, List.flatMap_cons,
      recordAll_append]

theorem imports_buildFile (file : File) :
    (buildFile file).imports = recordAll (importCalls file) [] := by
  unfold importCalls
  rw [← List.singleton_append, recordAll_append]
  simp only [buildFile, imports_foldl_dispatchers, generateEventBus, File.Add, File.Commentf,
    File.ImportName, File.HeaderComment, NewFilePathName]
  split <;> rfl

theorem importName?_buildFile (file : File) (p : String) :
    (buildFile file).importName? p = (importCalls file).reverse.lookup p := by
  unfold File.importName?
  rw [imports_buildFile, lookup_recordAll]
  cases (importCalls file).reverse.lookup p <;> rfl

theorem mem_of_lookup_eq_some (p n : String) (l : List (String × String))
    (h : l.lookup p = some n) : (p, n) ∈ l := by
  induction l with
  | nil => simp at h
  | cons c l ih =>
    obtain ⟨q, k⟩ := c
    by_cases hp : p = q
    · subst hp
      simp [List.lookup_cons] at h
      simp [h]
    · have hb : (p == q) = false := by simpa using hp
      simp only [List.lookup_cons, hb] at h
      exact List.mem_cons_of_mem _ (ih h)

theorem lookup_isSome_of_mem (p n : String) (l : List (String × String))
    (h : (p, n) ∈ l) : (l.lookup p).isSome = true := by
  induction l with
  | nil => simp at h
  | cons c l ih =>
    obtain ⟨q, k⟩ := c
    by_cases hp : p = q
    · subst hp
      simp [List.lookup_cons]
    · have hb : (p == q) = false := by simpa using hp
      simp only [List.lookup_cons, hb]
      rcases List.mem_cons.mp h with h1 | h1
      · exact absurd (congrArg Prod.fst h1) hp
      · exact ih h1

/-! ## Qualified references -/

theorem nodesList_append (a b : List Code) : nodesList (a ++ b) = nodesList a ++ nodesList b := by
  induction a with
  | nil => rfl
  | cons x a ih =>
    simp only [List.cons_append, nodesList, List.append_assoc]
    exact congrArg (fun l => x.nodes ++ l) ih

theorem qualPathsOf_append (a b : List Code) :
    qualPathsOf (a ++ b) = qualPathsOf a ++ qualPathsOf b := by
  simp only [qualPathsOf, nodesList_append, List.filterMap_append]

theorem mem_qualPathsOf_flatMap {α : Type} (g : α → List Code) (xs : List α) (p : String) :
    p ∈ qualPathsOf (xs.flatMap g) ↔ ∃ x ∈ xs, p ∈ qualPathsOf (g x) := by
  induction xs with
  | nil => simp [qualPathsOf, nodesList]
  | cons x xs ih =>
    simp only [List.flatMap_cons, qualPathsOf_append, List.mem_append, ih, List.mem_cons,
      exists_eq_or_imp]

theorem mem_qualPathsOf_methodItems (T : String) (m : EventMethod) (p : String)
    (h : p ∈ qualPathsOf (methodItems T m)) :
    p = "context" ∨ p = "emperror.dev/errors" ∨ p = m.Event.Package.Path := by
  obtain ⟨n, e, rc, re⟩ := m
  cases rc <;> cases re
  · have hq : qualPathsOf (methodItems T ⟨n, e, false, false⟩)
        = [e.Package.Path, "context"] := rfl
    rw [hq] at h
    simp only [List.mem_cons, List.mem_singleton, List.not_mem_nil, or_false] at h
    rcases h with h | h
    · exact Or.inr (Or.inr h)
    · exact Or.inl h
  · have hq : qualPathsOf (methodItems T ⟨n, e, false, true⟩)
        = [e.Package.Path, "context", "emperror.dev/errors", "emperror.dev/errors"] := rfl
    rw [hq] at h
    simp only [List.mem_cons, List.mem_singleton, List.not_mem_nil, or_false] at h
    rcases h with h | h | h | h
    · exact Or.inr (Or.inr h)
    · exact Or.inl h
    · exact Or.inr (Or.inl h)
    · exact Or.inr (Or.inl h)
  · have hq : qualPathsOf (methodItems T ⟨n, e, true, false⟩)
        = ["context", e.Package.Path] := rfl
    rw [hq] at h
    simp only [List.mem_cons, List.mem_singleton, List.not_mem_nil, or_false] at h
    rcases h with h | h
    · exact Or.inl h
    · exact Or.inr (Or.inr h)
  · have hq : qualPathsOf (methodItems T ⟨n, e, true, true⟩)
        = ["context", e.Package.Path, "emperror.dev/errors", "emperror.dev/errors"] := rfl
    rw [hq] at h
    simp only [List.mem_cons, List.mem_singleton, List.not_mem_nil, or_false] at h
    rcases h with h | h | h | h
    · exact Or.inl h
    · exact Or.inr (Or.inr h)
    · exact Or.inr (Or.inl h)
    · exact Or.inr (Or.inl h)

theorem mem_qualPathsOf_dispatcherItems (d : EventDispatcher) (p : String)
    (h : p ∈ qualPathsOf (dispatcherItems d)) :
    p = "context" ∨ p = "emperror.dev/errors" ∨
      ∃ m ∈ d.DispatcherMethods, p = m.Event.Package.Path := by
  rw [dispatcherItems_eq, qualPathsOf_append, List.mem_append] at h
  rcases h with h | h
  · have hq : qualPathsOf ((dispatcherItems d).take 4) = [] := by
      simp [generateEventDispatcher, dispatcherItems, items_foldl_methods, File.Add,
        File.Commentf, NewFilePathName]
      rfl
    rw [hq] at h
    simp at h
  · obtain ⟨m, hm, hp⟩ := (mem_qualPathsOf_flatMap _ _ _).mp h
    rcases mem_qualPathsOf_methodItems _ m p hp with h1 | h1 | h1
    · exact Or.inl h1
    · exact Or.inr (Or.inl h1)
    · exact Or.inr (Or.inr ⟨m, hm, h1⟩)

theorem mem_qualPaths_buildFile (file : File) (p : String)
    (h : p ∈ (buildFile file).qualPaths) :
    p = "context" ∨ p = "emperror.dev/errors" ∨
      ∃ d ∈ file.EventDispatchers, ∃ m ∈ d.DispatcherMethods, p = m.Event.Package.Path := by
  unfold File.qualPaths at h
  rw [items_buildFile, qualPathsOf_append, List.mem_append] at h
  rcases h with h | h
  · have hq : qualPathsOf (generateEventBus (NewFilePathName "" "") "EventBus").items
        = ["context"] := rfl
    rw [hq] at h
    exact Or.inl (List.mem_singleton.mp h)
  · obtain ⟨d, hd, hp⟩ := (mem_qualPathsOf_flatMap _ _ _).mp h
    rcases mem_qualPathsOf_dispatcherItems d p hp with h1 | h1 | ⟨m, hm, h1⟩
    · exact Or.inl h1
    · exact Or.inr (Or.inl h1)
    · exact Or.inr (Or.inr ⟨d, hd, m, hm, h1⟩)

theorem context_mem_qualPaths_buildFile (file : File) :
    "context" ∈ (buildFile file).qualPaths := by
  unfold File.qualPaths
  rw [items_buildFile, qualPathsOf_append, List.mem_append]
  exact Or.inl (List.mem_singleton.mpr rfl)

theorem lookup_eq_none_of_forall_ne (p : String) (l : List (String × String))
    (h : ∀ c ∈ l, c.1 ≠ p) : l.lookup p = none := by
  induction l with
  | nil => rfl
  | cons c l ih =>
    obtain ⟨q, k⟩ := c
    have hq : p ≠ q := fun e => h (q, k) (List.mem_cons_self _ _) e.symm
    have hb : (p == q) = false := by simpa using hq
    simp only [List.lookup_cons, hb]
    exact ih (fun c hc => h c (List.mem_cons_of_mem _ hc))

theorem mem_importCalls_of_method (file : File) (d : EventDispatcher) (m : EventMethod)
    (hd : d ∈ file.EventDispatchers) (hm : m ∈ d.DispatcherMethods) :
    (m.Event.Package.Path, m.Event.Package.Name) ∈ importCalls file := by
  unfold importCalls
  refine List.mem_cons_of_mem _ (List.mem_flatMap.mpr ⟨d, hd, ?_⟩)
  exact List.mem_map.mpr ⟨m, hm, rfl⟩

theorem importName?_isSome_of_call (file : File) (p n : String)
    (h : (p, n) ∈ importCalls file) : ((buildFile file).importName? p).isSome = true := by
  rw [importName?_buildFile]
  exact lookup_isSome_of_mem p n _ (List.mem_reverse.mpr h)

/-- C10, as stated, fails: already for a file without dispatchers the tree has
the qualified reference `context.Context` in the interface `EventBus`, and no
`ImportName` call has recorded the path `context`. -/
theorem resolution_completeness_counterexample :
    "context" ∈ (buildFile emptyFile).qualPaths ∧
    (buildFile emptyFile).importName? "context" = none ∧
    (buildFile emptyFile).importPaths = ["emperror.dev/errors"] := by
  decide

/-- C10, amended: every path of a qualified reference in the tree that
`Generate` builds is either `context` or has been recorded with `ImportName`;
the path `context` always occurs in the tree, and it has no record unless it is
the package path of an event. -/
theorem qualified_paths_recorded_except_context (file : File) :
    (∀ p ∈ (buildFile file).qualPaths,
      p = "context" ∨ ((buildFile file).importName? p).isSome = true) ∧
    "context" ∈ (buildFile file).qualPaths ∧
    ((∀ d ∈ file.EventDispatchers, ∀ m ∈ d.DispatcherMethods,
        m.Event.Package.Path ≠ "context") →
      (buildFile file).importName? "context" = none) := by
  refine ⟨?_, context_mem_qualPaths_buildFile file, ?_⟩
  · intro p hp
    rcases mem_qualPaths_buildFile file p hp with h | h | ⟨d, hd, m, hm, h⟩
    · exact Or.inl h
    · subst h
      exact Or.inr (importName?_isSome_of_call file _ "errors" (List.mem_cons_self _ _))
    · subst h
      exact Or.inr (importName?_isSome_of_call file _ _ (mem_importCalls_of_method file d m hd hm))
  · intro hne
    rw [importName?_buildFile]
    apply lookup_eq_none_of_forall_ne
    intro c hc
    rcases List.mem_cons.mp (List.mem_reverse.mp hc) with h | h
    · subst h
      decide
    · obtain ⟨d, hd, hc2⟩ := List.mem_flatMap.mp h
      obtain ⟨m, hm, hc3⟩ := List.mem_map.mp hc2
      subst hc3
      exact hne d hd m hm

/-- Witness of the amended C10 at the file with the dispatcher `Order`. -/
theorem qualified_paths_recorded_except_context_witness :
    (∀ d ∈ orderFile.EventDispatchers, ∀ m ∈ d.DispatcherMethods,
      m.Event.Package.Path ≠ "context") ∧
    (∀ p ∈ (buildFile orderFile).qualPaths,
      p = "context" ∨ ((buildFile orderFile).importName? p).isSome = true) ∧
    "context" ∈ (buildFile orderFile).qualPaths ∧
    (buildFile orderFile).importName? "context" = none :=
  ⟨by decide, (qualified_paths_recorded_except_context orderFile).1,
    (qualified_paths_recorded_except_context orderFile).2.1,
    (qualified_paths_recorded_except_context orderFile).2.2 (by decide)⟩

/-! ## Names given to `ImportName` -/

theorem methodDeclOf_signature (T : String) (m : EventMethod) :
    ∃ body, methodDeclOf T m
      = .FuncDecl (some ("d", [.Id T])) m.Name
          (if m.ReceivesContext then
            [("ctx", [.Qual "context" "Context"]),
              ("event", [.Qual m.Event.Package.Path m.Event.Name])]
          else [("event", [.Qual m.Event.Package.Path m.Event.Name])])
          (if m.ReturnsError then [.Error] else [])
          body := by
  obtain ⟨n, e, rc, re⟩ := m
  cases rc <;> cases re <;> exact ⟨_, rfl⟩

theorem methodDeclOf_mem_flatMap_dispatcherDecls (ds : List EventDispatcher)
    (d : EventDispatcher) (m : EventMethod) (hd : d ∈ ds) (hm : m ∈ d.DispatcherMethods) :
    methodDeclOf (d.Name ++ "EventDispatcher") m ∈ ds.flatMap dispatcherDecls := by
  refine List.mem_flatMap.mpr ⟨d, hd, ?_⟩
  rw [dispatcherDecls_eq]
  exact List.mem_cons_of_mem _ (List.mem_cons_of_mem _ (List.mem_map.mpr ⟨m, hm, rfl⟩))

theorem path_mem_qualPathsOf_methodItems (T : String) (m : EventMethod) :
    m.Event.Package.Path ∈ qualPathsOf (methodItems T m) := by
  obtain ⟨n, e, rc, re⟩ := m
  cases rc <;> cases re
  · have hq : qualPathsOf (methodItems T ⟨n, e, false, false⟩)
        = [e.Package.Path, "context"] := rfl
    rw [hq]
    exact List.mem_cons_self _ _
  · have hq : qualPathsOf (methodItems T ⟨n, e, false, true⟩)
        = [e.Package.Path, "context", "emperror.dev/errors", "emperror.dev/errors"] := rfl
    rw [hq]
    exact List.mem_cons_self _ _
  · have hq : qualPathsOf (methodItems T ⟨n, e, true, false⟩)
        = ["context", e.Package.Path] := rfl
    rw [hq]
    exact List.mem_cons_of_mem _ (List.mem_cons_self _ _)
  · have hq : qualPathsOf (methodItems T ⟨n, e, true, true⟩)
        = ["context", e.Package.Path, "emperror.dev/errors", "emperror.dev/errors"] := rfl
    rw [hq]
    exact List.mem_cons_of_mem _ (List.mem_cons_self _ _)

theorem path_mem_qualPaths_buildFile (file : File) (d : EventDispatcher) (m : EventMethod)
    (hd : d ∈ file.EventDispatchers) (hm : m ∈ d.DispatcherMethods) :
    m.Event.Package.Path ∈ (buildFile file).qualPaths := by
  unfold File.qualPaths
  rw [items_buildFile, qualPathsOf_append, List.mem_append]
  refine Or.inr ((mem_qualPathsOf_flatMap _ _ _).mpr ⟨d, hd, ?_⟩)
  rw [dispatcherItems_eq, qualPathsOf_append, List.mem_append]
  exact Or.inr ((mem_qualPathsOf_flatMap _ _ _).mpr
    ⟨m, hm, path_mem_qualPathsOf_methodItems _ m⟩)

/-- C6, as stated, fails: `Generate` has no check of the event path.  For the
file whose event type has the empty path, what it returns is what the renderer
and the formatter return; when both report no error it returns the bytes. -/
theorem empty_path_counterexample :
    (∃ d ∈ emptyPathFile.EventDispatchers, ∃ m ∈ d.DispatcherMethods,
      m.Event.Package.Path = "") ∧
    Generate (fun _ => .ok "package app") (fun src => .ok src) emptyPathFile
      = .ok "package app" ∧
    (buildFile emptyPathFile).qualPaths = ["context", "", "context"] := by
  refine ⟨⟨_, List.mem_singleton.mpr rfl, _, List.mem_singleton.mpr rfl, rfl⟩, rfl, ?_⟩
  decide

/-- C6, amended: `Generate` makes no check of the event paths.  For every file
it returns an error, and no bytes, exactly when the renderer or the formatter
reports one, and the formatted bytes otherwise.  For a file in which a method
has an event type with the empty path the whole file is built all the same: the
empty path is recorded by `ImportName`, it occurs as the path of a qualified
reference, all declarations are there, and every method with the empty path is
declared with the parameter `event` qualified by the empty path. -/
theorem empty_path_not_checked (Render : jen.File → Except String String)
    (formatSource : String → Except String String) (file : File) :
    ((∃ err, Generate Render formatSource file = .error err) ↔
      ((∃ err, Render (buildFile file) = .error err) ∨
        ∃ buf err, Render (buildFile file) = .ok buf ∧ formatSource buf = .error err)) ∧
    (∀ buf out, Render (buildFile file) = .ok buf → formatSource buf = .ok out →
      Generate Render formatSource file = .ok out) ∧
    ((∃ d ∈ file.EventDispatchers, ∃ m ∈ d.DispatcherMethods, m.Event.Package.Path = "") →
      "" ∈ (buildFile file).importPaths ∧
      "" ∈ (buildFile file).qualPaths ∧
      ∃ decls, declsOf (buildFile file).items = some decls ∧
        decls.length
          = 1 + (file.EventDispatchers.map (fun d => 2 + d.DispatcherMethods.length)).sum ∧
        ∀ d ∈ file.EventDispatchers, ∀ m ∈ d.DispatcherMethods, m.Event.Package.Path = "" →
          ∃ body, Decl.FuncDecl (some ("d", [.Id (d.Name ++ "EventDispatcher")])) m.Name
            (if m.ReceivesContext then
              [("ctx", [.Qual "context" "Context"]), ("event", [.Qual "" m.Event.Name])]
            else [("event", [.Qual "" m.Event.Name])])
            (if m.ReturnsError then [.Error] else [])
            body ∈ decls) := by
  refine ⟨?_, ?_, ?_⟩
  · unfold Generate
    cases hr : Render (buildFile file) with
    | error e => simp [hr]
    | ok buf =>
      cases hf : formatSource buf with
      | error e => simp [hr, hf]
      | ok out => simp [hr, hf]
  · intro buf out hr hf
    unfold Generate
    simp [hr, hf]
  · rintro ⟨d, hd, m, hm, hpath⟩
    refine ⟨?_, ?_, _, declsOf_buildFile file, ?_, ?_⟩
    · have h1 := importName?_isSome_of_call file _ _ (mem_importCalls_of_method file d m hd hm)
      rw [hpath] at h1
      unfold File.importName? at h1
      unfold File.importPaths
      obtain ⟨n, hn⟩ := Option.isSome_iff_exists.mp h1
      exact List.mem_map.mpr ⟨_, mem_of_lookup_eq_some _ _ _ hn, rfl⟩
    · have h2 := path_mem_qualPaths_buildFile file d m hd hm
      rwa [hpath] at h2
    · simp only [List.length_cons, (flatMap_dispatcherDecls file.EventDispatchers).2.1]
      omega
    · intro d₂ hd₂ m₂ hm₂ hp₂
      obtain ⟨body, hb⟩ := methodDeclOf_signature (d₂.Name ++ "EventDispatcher") m₂
      refine ⟨body, List.mem_cons_of_mem _ ?_⟩
      rw [hp₂] at hb
      rw [← hb]
      exact methodDeclOf_mem_flatMap_dispatcherDecls _ d₂ m₂ hd₂ hm₂

/-- Witness of the amended C6 at the file whose event type has the empty path,
with a renderer and a formatter that report no error. -/
theorem empty_path_not_checked_witness :
    (∃ d ∈ emptyPathFile.EventDispatchers, ∃ m ∈ d.DispatcherMethods,
      m.Event.Package.Path = "") ∧
    Generate (fun _ => .ok "package app") (fun src => .ok src) emptyPathFile
      = .ok "package app" ∧
    "" ∈ (buildFile emptyPathFile).importPaths ∧
    "" ∈ (buildFile emptyPathFile).qualPaths :=
  have h := empty_path_not_checked (fun _ => .ok "package app") (fun src => .ok src)
    emptyPathFile
  have h3 := h.2.2 ⟨_, List.mem_singleton.mpr rfl, _, List.mem_singleton.mpr rfl, rfl⟩
  ⟨⟨_, List.mem_singleton.mpr rfl, _, List.mem_singleton.mpr rfl, rfl⟩,
    h.2.1 "package app" "package app" rfl rfl, h3.1, h3.2.1⟩

end dispatcher
